import Mathlib

/-!
Shallow embedding of the creatves-hub movie-catalog server.

The repository contains two variants of the Express server:
* `src/unnamed/part_001` — the current server (four categories including
  `animation`, backup pruning via `cleanupOldBackups`); modelled in
  namespace `Hub`.
* `src/server.js` — a legacy variant (three categories, no backup pruning);
  its `validateMovie` is modelled in namespace `ServerJs` where the two differ.

The catalog file, backup directory and media files on disk are modelled by an
explicit `ServerState`; the route handlers `POST /movies/add`,
`POST /movies/edit/:id` and `DELETE /movies/delete/:id` become pure state
transformers returning an `Except` for the HTTP error paths.  Timestamps
(`new Date().toISOString()`) are passed in as an explicit `ts` argument.
-/

namespace CreativesHub

/-- JS `v || d` for an optional string field: `undefined` and the empty
string are falsy, every other string is truthy. -/
def jsOr (v : Option String) (d : String) : String :=
  match v with
  | some s => if s = "" then d else s
  | none => d

/-- The common JS whitespace code points recognised by `trim` and by
`Number` coercion. -/
def jsWhitespace (c : Char) : Bool :=
  c == ' ' || c == '\t' || c == '\n' || c == '\r' ||
  c == '\x0b' || c == '\x0c' || c == '\u00A0' || c == '\uFEFF'

/-- `String.prototype.trim()` on the underlying character list. -/
def listTrim (cs : List Char) : List Char :=
  ((cs.dropWhile jsWhitespace).reverse.dropWhile jsWhitespace).reverse

/-- JS `s.trim()`. -/
def jsTrim (s : String) : String := ⟨listTrim s.data⟩

/-- `String.prototype.split(sep)` for a one-character separator, on the
underlying character list (`"".split(',')` is `[""]`). -/
def splitOnChar (sep : Char) : List Char → List (List Char)
  | [] => [[]]
  | c :: rest =>
    if c = sep then [] :: splitOnChar sep rest
    else
      match splitOnChar sep rest with
      | [] => [[c]]
      | g :: gs => (c :: g) :: gs

/-- Lexicographic code-point comparison of character lists: the order the
default comparator of JS `Array.prototype.sort` induces on (BMP) strings. -/
def listCharLe : List Char → List Char → Bool
  | [], _ => true
  | _ :: _, [] => false
  | a :: as, b :: bs =>
    if a < b then true
    else if b < a then false
    else listCharLe as bs

/-- JS default string comparison `a <= b`. -/
def jsStrLe (a b : String) : Bool := listCharLe a.data b.data

/-- Hexadecimal digit test for JS numeric literals. -/
def isHexDigit (c : Char) : Bool :=
  c.isDigit || ('a' ≤ c && c ≤ 'f') || ('A' ≤ c && c ≤ 'F')

/-- Value of a hexadecimal digit. -/
def hexVal (c : Char) : Nat :=
  if c.isDigit then c.toNat - 48
  else if 'a' ≤ c && c ≤ 'f' then c.toNat - 87
  else c.toNat - 55

/-- Digit string to natural number in the given base. -/
def digitsToNat (base : Nat) (ds : List Char) : Nat :=
  ds.foldl (fun a c => a * base + hexVal c) 0

/-- Unsigned decimal mantissa `digits[.digits]` of a JS number literal. -/
def parseDecMant (cs : List Char) : Option ℚ :=
  let ip := cs.takeWhile Char.isDigit
  let rest := cs.dropWhile Char.isDigit
  match rest with
  | [] => if ip.isEmpty then none else some (digitsToNat 10 ip)
  | '.' :: fp =>
    if fp.all Char.isDigit && !(ip.isEmpty && fp.isEmpty) then
      some ((digitsToNat 10 (ip ++ fp) : ℚ) / (10 : ℚ) ^ fp.length)
    else none
  | _ => none

/-- Exponent part of a JS number literal (after the `e`/`E`). -/
def parseExp (cs : List Char) : Option Int :=
  match cs with
  | '+' :: ds => if !ds.isEmpty && ds.all Char.isDigit then some (digitsToNat 10 ds) else none
  | '-' :: ds => if !ds.isEmpty && ds.all Char.isDigit then some (-(digitsToNat 10 ds : Int)) else none
  | ds => if !ds.isEmpty && ds.all Char.isDigit then some (digitsToNat 10 ds) else none

/-- Unsigned decimal JS number literal with optional exponent. -/
def parseDecNum (cs : List Char) : Option ℚ :=
  let mant := cs.takeWhile (fun c => !(c == 'e' || c == 'E'))
  let rest := cs.dropWhile (fun c => !(c == 'e' || c == 'E'))
  match rest with
  | [] => parseDecMant mant
  | _ :: es =>
    match parseDecMant mant, parseExp es with
    | some m, some e => some (m * (10 : ℚ) ^ e)
    | _, _ => none

/-- Signed decimal JS number literal. -/
def parseSignedDecNum (cs : List Char) : Option ℚ :=
  match cs with
  | '+' :: ds => parseDecNum ds
  | '-' :: ds => (parseDecNum ds).map Neg.neg
  | ds => parseDecNum ds

/-- Model of JS `Number(s)` string-to-number coercion, as an exact rational:
`none` plays the role of `NaN`.  Covers trimmed whitespace, the empty string
(which coerces to `0`), signed decimal literals with optional fraction and
exponent, and `0x`/`0b`/`0o` prefixed literals.  `Infinity` (unrepresentable
in `ℚ`) is mapped to `none`; every use in the source (the `[0, 10]` rating
range check) rejects an infinite value exactly as it rejects `NaN`, so the
observable validation outcome agrees. -/
def jsToNum (s : String) : Option ℚ :=
  match listTrim s.data with
  | [] => some 0
  | '0' :: c :: ds =>
    if c == 'x' || c == 'X' then
      if !ds.isEmpty && ds.all isHexDigit then some (digitsToNat 16 ds) else none
    else if c == 'b' || c == 'B' then
      if !ds.isEmpty && ds.all (fun d => d == '0' || d == '1') then some (digitsToNat 2 ds) else none
    else if c == 'o' || c == 'O' then
      if !ds.isEmpty && ds.all (fun d => '0' ≤ d && d ≤ '7') then some (digitsToNat 8 ds) else none
    else parseSignedDecNum ('0' :: c :: ds)
  | cs => parseSignedDecNum cs

/-- An uploaded file as seen by the route handlers (multer has already
stored it and chosen `filename`). -/
structure UploadedFile where
  filename : String
deriving DecidableEq, Repr

/-- The parts of a multipart request the add/edit handlers read:
`req.files` (the two optional file fields) and the `req.body` form fields.
`none` models an absent (`undefined`) field. -/
structure MovieRequest where
  movie_file : Option UploadedFile
  poster_file : Option UploadedFile
  title : Option String
  file_path : Option String
  poster : Option String
  duration : Option String
  year : Option String
  rating : Option String
  resolution : Option String
  category : Option String
  genres : Option String
  description : Option String
deriving DecidableEq, Repr

/-- A record as built by the handlers just before `validateMovie`:
`genres` is still the raw comma-separated form field. -/
structure BuiltMovie where
  title : Option String
  file_path : String
  poster : String
  duration : String
  year : String
  rating : String
  resolution : String
  category : Option String
  genres : Option String
  description : String
deriving DecidableEq, Repr

/-- A record as persisted in `movies.json`: `id` has been assigned and
`genres` normalized to a list. -/
structure StoredMovie where
  id : Int
  title : Option String
  file_path : String
  poster : String
  duration : String
  year : String
  rating : String
  resolution : String
  category : Option String
  genres : List String
  description : String
deriving DecidableEq, Repr

/-- `{ ...movie, id }`: the stored record obtained from a validated built
record, the assigned id and the normalized genres. -/
def mkStored (id : Int) (m : BuiltMovie) (genres : List String) : StoredMovie :=
  { id := id
    title := m.title
    file_path := m.file_path
    poster := m.poster
    duration := m.duration
    year := m.year
    rating := m.rating
    resolution := m.resolution
    category := m.category
    genres := genres
    description := m.description }

/-- `movie.year && !/^\d{4}$/.test(movie.year)`. -/
def yearBad (y : String) : Bool :=
  y ≠ "" && !(y.length == 4 && y.toList.all Char.isDigit)

/-- `movie.rating && (isNaN(movie.rating) || movie.rating < 0 || movie.rating > 10)`. -/
def ratingBad (r : String) : Bool :=
  r ≠ "" &&
    (match jsToNum r with
     | none => true
     | some q => decide (q < 0) || decide (q > 10))

/-- `movie.description && movie.description.length > 1000`. -/
def descriptionBad (d : String) : Bool :=
  d ≠ "" && d.length > 1000

/-- `movie.genres.split(',').map(g => g.trim()).filter(g => g)`, and `[]`
when the raw field is falsy. -/
def normalizeGenres (g : Option String) : List String :=
  match g with
  | some s =>
    if s = "" then []
    else ((splitOnChar ',' s.data).map (fun g => (⟨listTrim g⟩ : String))).filter (· ≠ "")
  | none => []

/-- `genres.some(g => g.length > 50)` on the normalized list. -/
def genresBad (gl : List String) : Bool :=
  gl.any (fun g => g.length > 50)

/-- Membership of an optional string in a category whitelist;
`undefined` is never a member. -/
def categoryOk (cats : List String) (c : Option String) : Bool :=
  match c with
  | some s => cats.contains s
  | none => false

/-- The catalog file on disk: absent, present with invalid JSON, or a valid
JSON array of records. -/
inductive CatalogFile where
  | absent
  | corrupt
  | valid (movies : List StoredMovie)
deriving DecidableEq, Repr

/-- The filesystem state the handlers touch: the catalog file, the names in
the backup directory, and the site-relative paths of media/poster files on
disk. -/
structure ServerState where
  catalog : CatalogFile
  backups : List String
  files : List String
deriving DecidableEq, Repr

/-- `ensureMoviesFile`: a missing or unparsable catalog file is overwritten
with an empty JSON array; a parsable one is left untouched.  The source
swallows its own errors, so this is total and touches nothing else. -/
def ensureMoviesFile (st : ServerState) : ServerState :=
  match st.catalog with
  | .valid _ => st
  | _ => { st with catalog := .valid [] }

/-- `new Date().toISOString().replace(/[:.]/g, '-')`. -/
def tsSanitize (ts : String) : String :=
  ⟨ts.data.map (fun c => if c = ':' || c = '.' then '-' else c)⟩

/-- The backup file name `movies-backup-<sanitized timestamp>.json`. -/
def backupName (ts : String) : String :=
  "movies-backup-" ++ tsSanitize ts ++ ".json"

instance : DecidableRel (fun a b : String => jsStrLe a b = true) :=
  fun a b => instDecidableEqBool (jsStrLe a b) true

instance : IsTotal String (fun a b => jsStrLe a b = true) where
  total := by
    suffices H : ∀ as bs : List Char, listCharLe as bs = true ∨ listCharLe bs as = true by
      intro a b
      exact H a.data b.data
    intro as
    induction as with
    | nil => intro bs; exact Or.inl rfl
    | cons a as2 ih =>
      intro bs
      cases bs with
      | nil => exact Or.inr rfl
      | cons b bs2 =>
        rcases lt_trichotomy a b with h | h | h
        · exact Or.inl (by simp [listCharLe, h])
        · subst h
          rcases ih bs2 with h2 | h2
          · exact Or.inl (by simp [listCharLe, lt_irrefl, h2])
          · exact Or.inr (by simp [listCharLe, lt_irrefl, h2])
        · exact Or.inr (by simp [listCharLe, h])

instance : IsTrans String (fun a b => jsStrLe a b = true) where
  trans := by
    suffices H : ∀ as bs cs : List Char, listCharLe as bs = true →
        listCharLe bs cs = true → listCharLe as cs = true by
      intro a b c hab hbc
      exact H a.data b.data c.data hab hbc
    intro as
    induction as with
    | nil => intro bs cs h1 h2; rfl
    | cons a as2 ih =>
      intro bs cs h1 h2
      cases bs with
      | nil => simp [listCharLe] at h1
      | cons b bs2 =>
        cases cs with
        | nil => simp [listCharLe] at h2
        | cons c cs2 =>
          rcases lt_trichotomy a b with hab | hab | hab
          · rcases lt_trichotomy b c with hbc | hbc | hbc
            · simp [listCharLe, lt_trans hab hbc]
            · subst hbc
              simp [listCharLe, hab]
            · simp [listCharLe, hbc, lt_asymm hbc] at h2
          · subst hab
            simp only [listCharLe, lt_irrefl, if_false] at h1
            rcases lt_trichotomy a c with hac | hac | hac
            · simp [listCharLe, hac]
            · subst hac
              simp only [listCharLe, lt_irrefl, if_false] at h2 ⊢
              exact ih _ _ h1 h2
            · simp [listCharLe, hac, lt_asymm hac] at h2
          · simp [listCharLe, hab, lt_asymm hab] at h1

/-- JS `Array.prototype.sort()` (default lexicographic comparator) followed
by `.reverse()`: descending lexicographic order. -/
def sortDesc (l : List String) : List String :=
  (List.insertionSort (fun a b => jsStrLe a b = true) l).reverse

/-- `fs.unlink` of a site-relative path, best-effort (a missing file throws
`ENOENT`, which the source catches and logs). -/
def unlink (p : String) (st : ServerState) : ServerState :=
  { st with files := st.files.filter (· ≠ p) }

/-- `fs.writeFile(moviesFile, JSON.stringify(movies, null, 2))`. -/
def writeMovies (l : List StoredMovie) (st : ServerState) : ServerState :=
  { st with catalog := .valid l }

/-- `movies.length ? Math.max(...movies.map(m => m.id)) + 1 : 1` —
`Math.max` over a nonempty spread as a left fold. -/
def jsMaxList : List Int → Int
  | [] => 0
  | x :: xs => xs.foldl max x

/-- The id assigned by the add handler. -/
def assignId (movies : List StoredMovie) : Int :=
  if movies.isEmpty then 1 else jsMaxList (movies.map (·.id)) + 1

end CreativesHub

namespace CreativesHub.Hub

/-- `src/unnamed/part_001` accepts these categories. -/
def hubCategories : List String := ["movie", "tv-series", "music", "animation"]

/-- `!movie.title || movie.title.trim() === ''` (part_001 also rejects
whitespace-only titles). -/
def titleMissing (t : Option String) : Bool :=
  match t with
  | none => true
  | some s => s = "" || jsTrim s = ""

/-- `validateMovie` of `src/unnamed/part_001`: the chain of checks in source
order; on success it returns the normalized genres list (the source mutates
`movie.genres` in place). -/
def validateMovie (m : BuiltMovie) : Except String (List String) :=
  if titleMissing m.title then .error "Title is required"
  else if !categoryOk hubCategories m.category then .error "Invalid category"
  else if yearBad m.year then .error "Year must be a 4-digit number"
  else if ratingBad m.rating then .error "Rating must be between 0 and 10"
  else if descriptionBad m.description then .error "Description must be 1000 characters or less"
  else
    let gl := normalizeGenres m.genres
    if genresBad gl then .error "Each genre must be 50 characters or less"
    else .ok gl

/-- The directory prefix of a freshly uploaded media file, from the nested
conditional on `req.body.category` (anything that is not one of the first
three literals — including `undefined` — falls through to animations). -/
def hubDirFor (category : Option String) : String :=
  match category with
  | some "movie" => "hub/movies"
  | some "tv-series" => "hub/series"
  | some "music" => "hub/music"
  | _ => "hub/animations"

/-- The record built by `POST /movies/add` from the form fields and the
required uploaded movie file. -/
def buildAddMovie (req : MovieRequest) (mf : UploadedFile) : BuiltMovie :=
  { title := req.title
    file_path := "/" ++ hubDirFor req.category ++ "/" ++ mf.filename
    poster :=
      match req.poster_file with
      | some pf => "/hub/posters/" ++ pf.filename
      | none => jsOr req.poster ""
    duration := jsOr req.duration ""
    year := jsOr req.year ""
    rating := jsOr req.rating ""
    resolution := jsOr req.resolution ""
    category := req.category
    genres := req.genres
    description := jsOr req.description "" }

/-- The replacement record built by `POST /movies/edit/:id`: `file_path`
falls back to the `file_path` form field, then to the old record; `poster`
falls back to the `poster` form field, then to the old record; every other
field comes from the request alone. -/
def buildEditMovie (req : MovieRequest) (old : StoredMovie) : BuiltMovie :=
  { title := req.title
    file_path :=
      match req.movie_file with
      | some mf => "/" ++ hubDirFor req.category ++ "/" ++ mf.filename
      | none => jsOr req.file_path old.file_path
    poster :=
      match req.poster_file with
      | some pf => "/hub/posters/" ++ pf.filename
      | none => jsOr req.poster old.poster
    duration := jsOr req.duration ""
    year := jsOr req.year ""
    rating := jsOr req.rating ""
    resolution := jsOr req.resolution ""
    category := req.category
    genres := req.genres
    description := jsOr req.description "" }

/-- `cleanupOldBackups(maxBackups = 10)`: list the backup directory, sort
descending, and when over the limit unlink everything beyond the first
`maxBackups` names; otherwise the directory is untouched. -/
def cleanupOldBackups (maxBackups : Nat) (dir : List String) : List String :=
  let backups := sortDesc dir
  if backups.length > maxBackups then backups.take maxBackups else dir

/-- `backupMoviesFile` of part_001: copy the catalog file into the backup
directory under a timestamp name (a repeated name overwrites), then prune.
If the catalog file is absent, `fs.copyFile` throws and the catch leaves
everything as it was (pruning is not reached). -/
def backupMoviesFile (ts : String) (st : ServerState) : ServerState :=
  match st.catalog with
  | .absent => st
  | _ =>
    let name := backupName ts
    { st with backups := cleanupOldBackups 10 (name :: st.backups.filter (· ≠ name)) }

/-- `POST /movies/add` of part_001. -/
def movies_add (req : MovieRequest) (ts : String) (st : ServerState) :
    Except String StoredMovie × ServerState :=
  match req.movie_file with
  | none => (.error "Movie file is required", st)
  | some mf =>
    let built := buildAddMovie req mf
    match validateMovie built with
    | .error e => (.error e, st)
    | .ok gl =>
      let st1 := ensureMoviesFile st
      let st2 := backupMoviesFile ts st1
      match st2.catalog with
      | .valid movies =>
        let newRec := mkStored (assignId movies) built gl
        (.ok newRec, writeMovies (movies ++ [newRec]) st2)
      | _ => (.error "Server error", st2)

/-- `POST /movies/edit/:id` of part_001.  `idParam` is
`parseInt(req.params.id)`; `findIdx` models `findIndex` (returning the
length plays the role of `-1`). -/
def movies_edit (idParam : Int) (req : MovieRequest) (ts : String) (st : ServerState) :
    Except String StoredMovie × ServerState :=
  let st1 := ensureMoviesFile st
  match st1.catalog with
  | .valid movies =>
    let index := movies.findIdx (fun m => m.id == idParam)
    if hidx : index < movies.length then
      let oldMovie := movies[index]
      let built := buildEditMovie req oldMovie
      match validateMovie built with
      | .error e => (.error e, st1)
      | .ok gl =>
        let st2 := backupMoviesFile ts st1
        let newRec := mkStored idParam built gl
        let st3 := if req.movie_file.isSome ∧ oldMovie.file_path ≠ "" then unlink oldMovie.file_path st2 else st2
        let st4 := if req.poster_file.isSome ∧ oldMovie.poster ≠ "" then unlink oldMovie.poster st3 else st3
        (.ok newRec, writeMovies (movies.set index newRec) st4)
    else (.error "Movie not found", st1)
  | _ => (.error "Server error", st1)

/-- `DELETE /movies/delete/:id` of part_001. -/
def movies_delete (idParam : Int) (ts : String) (st : ServerState) :
    Except String String × ServerState :=
  let st1 := ensureMoviesFile st
  match st1.catalog with
  | .valid movies =>
    let index := movies.findIdx (fun m => m.id == idParam)
    if hidx : index < movies.length then
      let movie := movies[index]
      let st2 := if movie.file_path ≠ "" then unlink movie.file_path st1 else st1
      let st3 := if movie.poster ≠ "" then unlink movie.poster st2 else st2
      let st4 := backupMoviesFile ts st3
      (.ok "Movie deleted", writeMovies (movies.eraseIdx index) st4)
    else (.error "Movie not found", st1)
  | _ => (.error "Failed to delete movie", st1)

end CreativesHub.Hub

namespace CreativesHub.ServerJs

/-- `src/server.js` accepts only these categories (no `animation`). -/
def serverJsCategories : List String := ["movie", "tv-series", "music"]

/-- `!movie.title` of server.js (no trim check). -/
def titleMissing (t : Option String) : Bool :=
  match t with
  | none => true
  | some s => s = ""

/-- `validateMovie` of `src/server.js`: identical to the part_001 chain
except for the title check and the three-element category whitelist. -/
def validateMovie (m : BuiltMovie) : Except String (List String) :=
  if titleMissing m.title then .error "Title is required"
  else if !categoryOk serverJsCategories m.category then .error "Invalid category"
  else if yearBad m.year then .error "Year must be a 4-digit number"
  else if ratingBad m.rating then .error "Rating must be between 0 and 10"
  else if descriptionBad m.description then .error "Description must be 1000 characters or less"
  else
    let gl := normalizeGenres m.genres
    if genresBad gl then .error "Each genre must be 50 characters or less"
    else .ok gl

end CreativesHub.ServerJs

namespace CreativesHub

/-! ### Concrete fixtures used by witnesses and counterexamples -/

/-- A stored record with the given id, as it would sit in `movies.json`. -/
def demoMovie (i : Int) : StoredMovie :=
  { id := i
    title := some "Old"
    file_path := "/hub/movies/old.mp4"
    poster := "/hub/posters/old.jpg"
    duration := ""
    year := ""
    rating := ""
    resolution := ""
    category := some "movie"
    genres := []
    description := "" }

/-- A well-formed add/edit request: an uploaded movie file, a title and the
`music` category; every other field absent. -/
def demoReq : MovieRequest :=
  { movie_file := some { filename := "new.mp4" }
    poster_file := none
    title := some "New"
    file_path := none
    poster := none
    duration := none
    year := none
    rating := none
    resolution := none
    category := some "music"
    genres := none
    description := none }

/-- A server state with one stored record, one existing backup and the
record's two files on disk. -/
def demoState : ServerState :=
  { catalog := .valid [demoMovie 3]
    backups := ["movies-backup-0.json"]
    files := ["/hub/movies/old.mp4", "/hub/posters/old.jpg"] }

/-- A built record with the `animation` category and every other field
valid; used to exhibit the divergence between the two validators. -/
def animMovie : BuiltMovie :=
  { title := some "Anim"
    file_path := "/hub/animations/a.mp4"
    poster := ""
    duration := ""
    year := "2024"
    rating := "8"
    resolution := ""
    category := some "animation"
    genres := some "cartoon"
    description := "" }

/-- The record created by adding `demoReq` to `demoState`. -/
def c1created : StoredMovie :=
  { id := 4
    title := some "New"
    file_path := "/hub/music/new.mp4"
    poster := ""
    duration := ""
    year := ""
    rating := ""
    resolution := ""
    category := some "music"
    genres := []
    description := "" }

/-- The server state after adding `demoReq` to `demoState`. -/
def c1state : ServerState :=
  { catalog := .valid [demoMovie 3, c1created]
    backups := ["movies-backup-ts.json", "movies-backup-0.json"]
    files := ["/hub/movies/old.mp4", "/hub/posters/old.jpg"] }

/-- A starting state for the edit witnesses: one record with id 3 and a
previously set year. -/
def c9start : ServerState :=
  { demoState with catalog := .valid [{ demoMovie 3 with year := "1999" }] }

/-- The record returned by editing id 3 of `c9start` with `demoReq` minus
its upload: title and category come from the request, `file_path` and
`poster` fall back to the old record, and the old year is wiped to `""`. -/
def c9updated : StoredMovie :=
  { id := 3
    title := some "New"
    file_path := "/hub/movies/old.mp4"
    poster := "/hub/posters/old.jpg"
    duration := ""
    year := ""
    rating := ""
    resolution := ""
    category := some "music"
    genres := []
    description := "" }

/-- The server state after that edit. -/
def c9state : ServerState :=
  { catalog := .valid [c9updated]
    backups := ["movies-backup-ts.json", "movies-backup-0.json"]
    files := ["/hub/movies/old.mp4", "/hub/posters/old.jpg"] }

/-! ### Generic helper lemmas -/

theorem foldl_max_init_le (as : List Int) (a : Int) : a ≤ as.foldl max a := by
  induction as generalizing a with
  | nil => exact le_refl a
  | cons b bs ih => exact le_trans (le_max_left a b) (ih (max a b))

theorem foldl_max_mem_le (as : List Int) (a : Int) {x : Int} (hx : x ∈ as) :
    x ≤ as.foldl max a := by
  induction as generalizing a with
  | nil => cases hx
  | cons b bs ih =>
    rcases List.mem_cons.mp hx with rfl | h
    · exact le_trans (le_max_right a x) (foldl_max_init_le bs (max a x))
    · exact ih (max a b) h

theorem foldl_max_mem (as : List Int) (a : Int) :
    as.foldl max a = a ∨ as.foldl max a ∈ as := by
  induction as generalizing a with
  | nil => exact Or.inl rfl
  | cons b bs ih =>
    rcases ih (max a b) with h | h
    · rcases max_choice a b with hm | hm
      · exact Or.inl (by rw [List.foldl_cons, h, hm])
      · exact Or.inr (by rw [List.foldl_cons, h, hm]; exact List.mem_cons_self b bs)
    · exact Or.inr (List.mem_cons_of_mem b h)

theorem jsMaxList_mem : ∀ {l : List Int}, l ≠ [] → jsMaxList l ∈ l
  | [], h => absurd rfl h
  | x :: xs, _ => by
    show xs.foldl max x ∈ x :: xs
    rcases foldl_max_mem xs x with h | h
    · rw [h]; exact List.mem_cons_self x xs
    · exact List.mem_cons_of_mem x h

theorem le_jsMaxList : ∀ {l : List Int} {x : Int}, x ∈ l → x ≤ jsMaxList l
  | y :: ys, x, hx => by
    show x ≤ ys.foldl max y
    rcases List.mem_cons.mp hx with rfl | h
    · exact foldl_max_init_le ys x
    · exact foldl_max_mem_le ys y h

theorem list_set_getElem_self {α : Type} (l : List α) (i : Nat) (h : i < l.length) :
    l.set i l[i] = l := by
  apply List.ext_getElem
  · rw [List.length_set]
  · intro j h1 h2
    by_cases hij : i = j
    · subst hij
      exact List.getElem_set_self h1
    · exact List.getElem_set_ne hij h1

end CreativesHub

namespace CreativesHub.Hub

/-! ### Evaluation of the route handlers on a readable catalog -/

theorem movies_add_eval (req : MovieRequest) (ts : String) (l : List StoredMovie)
    (bks fls : List String) :
    movies_add req ts ⟨.valid l, bks, fls⟩ =
      match req.movie_file with
      | none => (.error "Movie file is required", ⟨.valid l, bks, fls⟩)
      | some mf =>
        match validateMovie (buildAddMovie req mf) with
        | .error e => (.error e, ⟨.valid l, bks, fls⟩)
        | .ok gl =>
          let newRec := mkStored (assignId l) (buildAddMovie req mf) gl
          (.ok newRec,
            ⟨.valid (l ++ [newRec]),
             cleanupOldBackups 10 (backupName ts :: bks.filter (· ≠ backupName ts)),
             fls⟩) := by
  cases hmf : req.movie_file with
  | none => simp only [movies_add, hmf]
  | some mf =>
    simp only [movies_add, hmf]
    cases hv : validateMovie (buildAddMovie req mf) with
    | error e => simp only [hv]
    | ok gl =>
      simp only [hv, ensureMoviesFile, backupMoviesFile, writeMovies]

theorem movies_edit_eval (i : Int) (req : MovieRequest) (ts : String)
    (l : List StoredMovie) (bks fls : List String) :
    movies_edit i req ts ⟨.valid l, bks, fls⟩ =
      (if hidx : l.findIdx (fun m => m.id == i) < l.length then
        let oldMovie := l[l.findIdx (fun m => m.id == i)]
        match validateMovie (buildEditMovie req oldMovie) with
        | .error e => (.error e, ⟨.valid l, bks, fls⟩)
        | .ok gl =>
          let newRec := mkStored i (buildEditMovie req oldMovie) gl
          let f1 := if req.movie_file.isSome ∧ oldMovie.file_path ≠ "" then
              fls.filter (· ≠ oldMovie.file_path) else fls
          let f2 := if req.poster_file.isSome ∧ oldMovie.poster ≠ "" then
              f1.filter (· ≠ oldMovie.poster) else f1
          (.ok newRec,
            ⟨.valid (l.set (l.findIdx (fun m => m.id == i)) newRec),
             cleanupOldBackups 10 (backupName ts :: bks.filter (· ≠ backupName ts)),
             f2⟩)
      else (.error "Movie not found", ⟨.valid l, bks, fls⟩)) := by
  simp only [movies_edit, ensureMoviesFile]
  by_cases hidx : l.findIdx (fun m => m.id == i) < l.length
  · simp only [dif_pos hidx]
    cases hv : validateMovie (buildEditMovie req (l[l.findIdx (fun m => m.id == i)])) with
    | error e => simp only [hv]
    | ok gl =>
      simp only [hv, backupMoviesFile, unlink, writeMovies]
      by_cases h1 : req.movie_file.isSome ∧ (l[l.findIdx (fun m => m.id == i)]).file_path ≠ "" <;>
        by_cases h2 : req.poster_file.isSome ∧ (l[l.findIdx (fun m => m.id == i)]).poster ≠ "" <;>
          simp [h1, h2]
  · simp only [dif_neg hidx]

theorem movies_delete_eval (i : Int) (ts : String) (l : List StoredMovie)
    (bks fls : List String) :
    movies_delete i ts ⟨.valid l, bks, fls⟩ =
      (if hidx : l.findIdx (fun m => m.id == i) < l.length then
        let movie := l[l.findIdx (fun m => m.id == i)]
        let f1 := if movie.file_path ≠ "" then fls.filter (· ≠ movie.file_path) else fls
        let f2 := if movie.poster ≠ "" then f1.filter (· ≠ movie.poster) else f1
        (.ok "Movie deleted",
          ⟨.valid (l.eraseIdx (l.findIdx (fun m => m.id == i))),
           cleanupOldBackups 10 (backupName ts :: bks.filter (· ≠ backupName ts)),
           f2⟩)
      else (.error "Movie not found", ⟨.valid l, bks, fls⟩)) := by
  simp only [movies_delete, ensureMoviesFile]
  by_cases hidx : l.findIdx (fun m => m.id == i) < l.length
  · simp only [dif_pos hidx]
    by_cases h1 : (l[l.findIdx (fun m => m.id == i)]).file_path ≠ "" <;>
      by_cases h2 : (l[l.findIdx (fun m => m.id == i)]).poster ≠ "" <;>
        simp [h1, h2, backupMoviesFile, unlink, writeMovies]
  · simp only [dif_neg hidx]

end CreativesHub.Hub

namespace CreativesHub

/-! ### Characterization of the validators -/

theorem hub_validateMovie_isOk_iff (m : BuiltMovie) :
    (Hub.validateMovie m).isOk = true ↔
      (Hub.titleMissing m.title = false ∧
       categoryOk Hub.hubCategories m.category = true ∧
       yearBad m.year = false ∧
       ratingBad m.rating = false ∧
       descriptionBad m.description = false ∧
       genresBad (normalizeGenres m.genres) = false) := by
  unfold Hub.validateMovie
  split_ifs with h1 h2 h3 h4 h5 <;>
    by_cases h6 : genresBad (normalizeGenres m.genres) = true <;>
      simp_all [Except.isOk, Except.toBool]

theorem serverJs_validateMovie_isOk_iff (m : BuiltMovie) :
    (ServerJs.validateMovie m).isOk = true ↔
      (ServerJs.titleMissing m.title = false ∧
       categoryOk ServerJs.serverJsCategories m.category = true ∧
       yearBad m.year = false ∧
       ratingBad m.rating = false ∧
       descriptionBad m.description = false ∧
       genresBad (normalizeGenres m.genres) = false) := by
  unfold ServerJs.validateMovie
  split_ifs with h1 h2 h3 h4 h5 <;>
    by_cases h6 : genresBad (normalizeGenres m.genres) = true <;>
      simp_all [Except.isOk, Except.toBool]

theorem hub_validateMovie_category_error (m : BuiltMovie)
    (ht : Hub.titleMissing m.title = false)
    (hc : categoryOk Hub.hubCategories m.category = false) :
    Hub.validateMovie m = .error "Invalid category" := by
  unfold Hub.validateMovie
  rw [ht, hc]
  rfl

theorem serverJs_validateMovie_category_error (m : BuiltMovie)
    (ht : ServerJs.titleMissing m.title = false)
    (hc : categoryOk ServerJs.serverJsCategories m.category = false) :
    ServerJs.validateMovie m = .error "Invalid category" := by
  unfold ServerJs.validateMovie
  rw [ht, hc]
  rfl

theorem hub_validateMovie_rating_error (m : BuiltMovie)
    (ht : Hub.titleMissing m.title = false)
    (hc : categoryOk Hub.hubCategories m.category = true)
    (hy : yearBad m.year = false)
    (hr : ratingBad m.rating = true) :
    Hub.validateMovie m = .error "Rating must be between 0 and 10" := by
  unfold Hub.validateMovie
  rw [ht, hc, hy, hr]
  rfl

/-! ### Sorting helper lemmas for backup pruning -/

theorem sortDesc_perm (l : List String) : (sortDesc l).Perm l :=
  (List.reverse_perm _).trans (List.perm_insertionSort _ l)

theorem jsStrLe_antisymm : ∀ {a b : String},
    jsStrLe a b = true → jsStrLe b a = true → a = b := by
  suffices H : ∀ as bs : List Char, listCharLe as bs = true →
      listCharLe bs as = true → as = bs by
    intro a b h1 h2
    cases a with
    | mk da =>
      cases b with
      | mk db => exact congrArg String.mk (H da db h1 h2)
  intro as
  induction as with
  | nil =>
    intro bs h1 h2
    cases bs with
    | nil => rfl
    | cons b bs2 => simp [listCharLe] at h2
  | cons a as2 ih =>
    intro bs h1 h2
    cases bs with
    | nil => simp [listCharLe] at h1
    | cons b bs2 =>
      rcases lt_trichotomy a b with h | h | h
      · simp [listCharLe, h, lt_asymm h] at h2
      · subst h
        simp only [listCharLe, lt_irrefl, if_false] at h1 h2
        rw [ih bs2 h1 h2]
      · simp [listCharLe, h, lt_asymm h] at h1

theorem sortDesc_sorted (l : List String) :
    List.Sorted (fun a b => jsStrLe b a = true) (sortDesc l) := by
  rw [sortDesc, List.Sorted, List.pairwise_reverse]
  exact List.sorted_insertionSort (fun a b => jsStrLe a b = true) l

theorem sortDesc_cons_of_max {l : List String} {x : String} (hx : x ∈ l)
    (hmax : ∀ y ∈ l, jsStrLe y x = true) : ∃ t, sortDesc l = x :: t := by
  cases hs : sortDesc l with
  | nil =>
    exfalso
    have hperm := sortDesc_perm l
    rw [hs] at hperm
    have hlnil : l = [] := hperm.symm.eq_nil
    rw [hlnil] at hx
    exact absurd hx (List.not_mem_nil x)
  | cons b t =>
    have hperm := sortDesc_perm l
    rw [hs] at hperm
    have hbl : b ∈ l := hperm.mem_iff.mp (List.mem_cons_self b t)
    have hxs : x ∈ b :: t := hperm.mem_iff.mpr hx
    have hsorted := sortDesc_sorted l
    rw [hs] at hsorted
    have hbt := (List.sorted_cons.mp hsorted).1
    have hbx : jsStrLe b x = true := hmax b hbl
    rcases List.mem_cons.mp hxs with rfl | hxt
    · exact ⟨t, rfl⟩
    · have hxb : jsStrLe x b = true := hbt x hxt
      have hxbeq : x = b := jsStrLe_antisymm hxb hbx
      exact ⟨t, by rw [hxbeq]⟩

theorem cleanupOldBackups_length_le (n : Nat) (dir : List String) :
    (Hub.cleanupOldBackups n dir).length ≤ n := by
  unfold Hub.cleanupOldBackups
  have hlen := (sortDesc_perm dir).length_eq
  by_cases h : (sortDesc dir).length > n
  · rw [if_pos h, List.length_take]
    omega
  · rw [if_neg h]
    omega

theorem cleanupOldBackups_subset (n : Nat) (dir : List String) :
    ∀ x ∈ Hub.cleanupOldBackups n dir, x ∈ dir := by
  intro x hx
  unfold Hub.cleanupOldBackups at hx
  by_cases h : (sortDesc dir).length > n
  · rw [if_pos h] at hx
    exact (sortDesc_perm dir).mem_iff.mp (List.mem_of_mem_take hx)
  · rwa [if_neg h] at hx

theorem mem_cleanupOldBackups_of_max {dir : List String} {x : String}
    (hx : x ∈ dir) (hmax : ∀ y ∈ dir, jsStrLe y x = true) {n : Nat} (hn : 0 < n) :
    x ∈ Hub.cleanupOldBackups n dir := by
  unfold Hub.cleanupOldBackups
  by_cases h : (sortDesc dir).length > n
  · rw [if_pos h]
    obtain ⟨t, ht⟩ := sortDesc_cons_of_max hx hmax
    rw [ht]
    obtain ⟨m, rfl⟩ := Nat.exists_eq_succ_of_ne_zero (Nat.pos_iff_ne_zero.mp hn)
    rw [List.take_succ_cons]
    exact List.mem_cons_self x _
  · rwa [if_neg h]

theorem cleanupOldBackups_dropped_le (n : Nat) (dir : List String) {x y : String}
    (hx : x ∈ Hub.cleanupOldBackups n dir) (hy : y ∈ dir)
    (hyn : y ∉ Hub.cleanupOldBackups n dir) : jsStrLe y x = true := by
  unfold Hub.cleanupOldBackups at hx hyn
  by_cases h : (sortDesc dir).length > n
  · rw [if_pos h] at hx hyn
    have hys : y ∈ sortDesc dir := (sortDesc_perm dir).mem_iff.mpr hy
    have hsplit : y ∈ (sortDesc dir).take n ++ (sortDesc dir).drop n := by
      rw [List.take_append_drop]
      exact hys
    have hyd : y ∈ (sortDesc dir).drop n := by
      rcases List.mem_append.mp hsplit with h1 | h1
      · exact absurd h1 hyn
      · exact h1
    obtain ⟨i, hi, hxe⟩ := List.mem_iff_getElem.mp hx
    obtain ⟨j, hj, hye⟩ := List.mem_iff_getElem.mp hyd
    rw [List.getElem_take] at hxe
    rw [List.getElem_drop] at hye
    have hilt : i < n := by
      have := hi
      rw [List.length_take] at this
      omega
    have hjlen : n + j < (sortDesc dir).length := by
      have := hj
      rw [List.length_drop] at this
      omega
    have hrel := (sortDesc_sorted dir).rel_get_of_lt
      (a := ⟨i, by omega⟩) (b := ⟨n + j, hjlen⟩) (by simp; omega)
    simp only [List.get_eq_getElem] at hrel
    rw [hxe, hye] at hrel
    exact hrel
  · rw [if_neg h] at hyn
    exact absurd hy hyn

end CreativesHub

namespace CreativesHub

/-! ### Claims -/

/-- Claim C1: for every valid add request, the id assigned to the newly
created record (and returned to the caller) equals 1 + the maximum id among
the records already in the catalog, or 1 when the catalog is empty. -/
theorem claim_C1_add_id (req : MovieRequest) (ts : String) (st st2 : ServerState)
    (l : List StoredMovie) (created : StoredMovie)
    (hcat : st.catalog = .valid l)
    (hadd : Hub.movies_add req ts st = (.ok created, st2)) :
    (l = [] → created.id = 1) ∧
    (l ≠ [] → ∃ M : Int, M ∈ l.map (·.id) ∧ (∀ x ∈ l.map (·.id), x ≤ M) ∧
      created.id = M + 1) ∧
    st2.catalog = .valid (l ++ [created]) := by
  obtain ⟨cat, bks, fls⟩ := st
  obtain rfl : cat = .valid l := hcat
  rw [Hub.movies_add_eval] at hadd
  rcases hmf : req.movie_file with _ | mf
  · simp only [hmf] at hadd
    simp at hadd
  · simp only [hmf] at hadd
    rcases hv : Hub.validateMovie (Hub.buildAddMovie req mf) with e | gl
    · simp only [hv] at hadd
      simp at hadd
    · simp only [hv] at hadd
      simp only [Prod.mk.injEq, Except.ok.injEq] at hadd
      obtain ⟨hrec, hst⟩ := hadd
      subst hrec
      subst hst
      refine ⟨?_, ?_, rfl⟩
      · intro h
        subst h
        simp [mkStored, assignId]
      · intro hne
        refine ⟨jsMaxList (l.map (·.id)),
          jsMaxList_mem (by simpa using hne),
          fun x hx => le_jsMaxList hx, ?_⟩
        have hie : l.isEmpty = false := by simpa [List.isEmpty_iff] using hne
        simp [mkStored, assignId, hie]

/-- Witness for C1: adding to a catalog whose only record has id 3 creates
and returns a record with id 4 = 3 + 1. -/
theorem claim_C1_witness :
    Hub.movies_add demoReq "ts" demoState =
      (.ok c1created, c1state) ∧ c1created.id = 4 := by
  have hadd : Hub.movies_add demoReq "ts" demoState = (.ok c1created, c1state) := by
    rfl
  have h := claim_C1_add_id demoReq "ts" demoState c1state [demoMovie 3] c1created rfl hadd
  obtain ⟨-, h2, -⟩ := h
  obtain ⟨M, hM, -, hid⟩ := h2 (by decide)
  have hM3 : M = 3 := by simpa [demoMovie] using hM
  exact ⟨hadd, by rw [hid, hM3]; decide⟩

/-- Claim C3: an add request whose built record fails validation returns
that validation error and leaves the server state — in particular the
backup directory and the catalog file — exactly unchanged. -/
theorem claim_C3_no_mutation_on_invalid (req : MovieRequest) (ts : String)
    (st : ServerState) (mf : UploadedFile) (e : String)
    (hmf : req.movie_file = some mf)
    (hval : Hub.validateMovie (Hub.buildAddMovie req mf) = .error e) :
    Hub.movies_add req ts st = (.error e, st) := by
  unfold Hub.movies_add
  rw [hmf]
  simp only [hval]

/-- Witness for C3: an add request with an invalid category is rejected
with the validator's message and the state (including its backups and
catalog) is returned untouched. -/
theorem claim_C3_witness :
    Hub.movies_add { demoReq with category := some "podcast" } "ts" demoState =
      (.error "Invalid category", demoState) :=
  claim_C3_no_mutation_on_invalid { demoReq with category := some "podcast" }
    "ts" demoState { filename := "new.mp4" } "Invalid category" rfl rfl

/-- Claim C8: `ensureMoviesFile` overwrites an absent or unparsable catalog
file with an empty JSON array, returning normally, and leaves a parsable
catalog file (and everything else in the state) untouched. -/
theorem claim_C8_ensure_self_healing :
    (∀ st : ServerState, st.catalog = .absent ∨ st.catalog = .corrupt →
      ensureMoviesFile st = { st with catalog := .valid [] }) ∧
    (∀ (st : ServerState) (l : List StoredMovie), st.catalog = .valid l →
      ensureMoviesFile st = st) := by
  constructor
  · intro st h
    obtain ⟨cat, bks, fls⟩ := st
    rcases h with h | h <;> (obtain rfl : cat = _ := h; rfl)
  · intro st l h
    obtain ⟨cat, bks, fls⟩ := st
    obtain rfl : cat = .valid l := h
    rfl

/-- Witness for C8: a corrupt catalog file is reset to the empty array, an
absent one likewise, and a valid one is untouched. -/
theorem claim_C8_witness :
    ensureMoviesFile ⟨.corrupt, ["b"], ["f"]⟩ = ⟨.valid [], ["b"], ["f"]⟩ ∧
    ensureMoviesFile ⟨.absent, [], []⟩ = ⟨.valid [], [], []⟩ ∧
    ensureMoviesFile demoState = demoState :=
  ⟨claim_C8_ensure_self_healing.1 ⟨.corrupt, ["b"], ["f"]⟩ (Or.inr rfl),
   claim_C8_ensure_self_healing.1 ⟨.absent, [], []⟩ (Or.inl rfl),
   claim_C8_ensure_self_healing.2 demoState [demoMovie 3] rfl⟩

end CreativesHub

namespace CreativesHub

/-- Claim C2: starting from any catalog whose records have pairwise-distinct
ids, every add, edit and delete operation yields a catalog whose records
still have pairwise-distinct ids (add assigns a fresh id above all existing
ones, edit preserves the target's id, delete only removes). -/
theorem claim_C2_id_uniqueness (st : ServerState) (l : List StoredMovie)
    (hcat : st.catalog = .valid l) (hnd : (l.map (·.id)).Nodup) :
    (∀ req ts r st2, Hub.movies_add req ts st = (r, st2) →
      ∃ l2, st2.catalog = .valid l2 ∧ (l2.map (·.id)).Nodup) ∧
    (∀ i req ts r st2, Hub.movies_edit i req ts st = (r, st2) →
      ∃ l2, st2.catalog = .valid l2 ∧ (l2.map (·.id)).Nodup) ∧
    (∀ i ts r st2, Hub.movies_delete i ts st = (r, st2) →
      ∃ l2, st2.catalog = .valid l2 ∧ (l2.map (·.id)).Nodup) := by
  obtain ⟨cat, bks, fls⟩ := st
  obtain rfl : cat = .valid l := hcat
  refine ⟨?_, ?_, ?_⟩
  · -- add
    intro req ts r st2 hop
    rw [Hub.movies_add_eval] at hop
    rcases hmf : req.movie_file with _ | mf
    · simp only [hmf] at hop
      injection hop with h1 h2
      subst h2
      exact ⟨l, rfl, hnd⟩
    · simp only [hmf] at hop
      rcases hv : Hub.validateMovie (Hub.buildAddMovie req mf) with e | gl
      · simp only [hv] at hop
        injection hop with h1 h2
        subst h2
        exact ⟨l, rfl, hnd⟩
      · simp only [hv] at hop
        injection hop with h1 h2
        subst h2
        refine ⟨l ++ [mkStored (assignId l) (Hub.buildAddMovie req mf) gl], rfl, ?_⟩
        have hfresh : assignId l ∉ l.map (·.id) := by
          intro hmem
          rcases eq_or_ne l [] with rfl | hne
          · simp at hmem
          · have hle := le_jsMaxList hmem
            have hie : l.isEmpty = false := by simpa [List.isEmpty_iff] using hne
            rw [assignId, hie] at hle
            simp at hle
        rw [List.map_append, List.nodup_append]
        refine ⟨hnd, List.nodup_singleton _, ?_⟩
        intro a ha hb
        simp [mkStored] at hb
        subst hb
        exact hfresh ha
  · -- edit
    intro i req ts r st2 hop
    rw [Hub.movies_edit_eval] at hop
    by_cases hidx : l.findIdx (fun m => m.id == i) < l.length
    · rw [dif_pos hidx] at hop
      rcases hv : Hub.validateMovie (Hub.buildEditMovie req l[l.findIdx (fun m => m.id == i)]) with e | gl
      · simp only [hv] at hop
        injection hop with h1 h2
        subst h2
        exact ⟨l, rfl, hnd⟩
      · simp only [hv] at hop
        injection hop with h1 h2
        subst h2
        refine ⟨_, rfl, ?_⟩
        have hpred : (fun m : StoredMovie => m.id == i) l[l.findIdx (fun m => m.id == i)] = true :=
          @List.findIdx_getElem _ _ _ hidx
        have hid : (l[l.findIdx (fun m => m.id == i)]).id = i := by
          simpa using hpred
        rw [List.map_set]
        have hlen2 : l.findIdx (fun m => m.id == i) < (l.map (·.id)).length := by
          rw [List.length_map]
          exact hidx
        have hnew : (mkStored i (Hub.buildEditMovie req l[l.findIdx (fun m => m.id == i)]) gl).id
            = (l.map (·.id))[l.findIdx (fun m => m.id == i)] := by
          rw [List.getElem_map]
          rw [hid]
          rfl
        rw [hnew, list_set_getElem_self (l.map (·.id)) _ hlen2]
        exact hnd
    · rw [dif_neg hidx] at hop
      injection hop with h1 h2
      subst h2
      exact ⟨l, rfl, hnd⟩
  · -- delete
    intro i ts r st2 hop
    rw [Hub.movies_delete_eval] at hop
    by_cases hidx : l.findIdx (fun m => m.id == i) < l.length
    · rw [dif_pos hidx] at hop
      injection hop with h1 h2
      subst h2
      refine ⟨_, rfl, ?_⟩
      exact List.Nodup.sublist (List.Sublist.map _ (List.eraseIdx_sublist l _)) hnd
    · rw [dif_neg hidx] at hop
      injection hop with h1 h2
      subst h2
      exact ⟨l, rfl, hnd⟩

/-- Witness for C2: on a one-record catalog with distinct ids, each of the
three operations yields a catalog with distinct ids. -/
theorem claim_C2_witness :
    (∃ l2, (Hub.movies_add demoReq "ts" demoState).2.catalog = CatalogFile.valid l2 ∧
      (l2.map (·.id)).Nodup) ∧
    (∃ l2, (Hub.movies_edit 3 demoReq "ts" demoState).2.catalog = CatalogFile.valid l2 ∧
      (l2.map (·.id)).Nodup) ∧
    (∃ l2, (Hub.movies_delete 3 "ts" demoState).2.catalog = CatalogFile.valid l2 ∧
      (l2.map (·.id)).Nodup) := by
  have h := claim_C2_id_uniqueness demoState [demoMovie 3] rfl (by decide)
  exact ⟨h.1 demoReq "ts" (Hub.movies_add demoReq "ts" demoState).1
           (Hub.movies_add demoReq "ts" demoState).2 rfl,
         h.2.1 3 demoReq "ts" (Hub.movies_edit 3 demoReq "ts" demoState).1
           (Hub.movies_edit 3 demoReq "ts" demoState).2 rfl,
         h.2.2 3 "ts" (Hub.movies_delete 3 "ts" demoState).1
           (Hub.movies_delete 3 "ts" demoState).2 rfl⟩

end CreativesHub

namespace CreativesHub

/-- Counterexample to C4 as stated: `animMovie` has category `animation`
and every other field valid (the same record with category `movie` passes
the server.js validator), yet the server.js `validateMovie` rejects it with
the invalid-category error, while the part_001 validator accepts it.  So
"record validation accepts exactly the four categories" is false of
`src/server.js`, whose whitelist has three entries. -/
theorem claim_C4_counterexample :
    animMovie.category = some "animation" ∧
    (ServerJs.validateMovie { animMovie with category := some "movie" }).isOk = true ∧
    ServerJs.validateMovie animMovie = .error "Invalid category" ∧
    (Hub.validateMovie animMovie).isOk = true :=
  ⟨rfl, by decide, by rfl, by decide⟩

/-- Claim C4 (amended): for every record whose other fields are valid, the
part_001 validator accepts exactly the four categories movie, tv-series,
music, animation and fails every other category value with the
invalid-category error; the legacy server.js validator accepts exactly
the three categories movie, tv-series, music. -/
theorem claim_C4_categories (m : BuiltMovie) :
    ((Hub.validateMovie { m with category := some "movie" }).isOk = true →
      (((Hub.validateMovie m).isOk = true) ↔
        (m.category = some "movie" ∨ m.category = some "tv-series" ∨
         m.category = some "music" ∨ m.category = some "animation")) ∧
      (¬(m.category = some "movie" ∨ m.category = some "tv-series" ∨
         m.category = some "music" ∨ m.category = some "animation") →
        Hub.validateMovie m = .error "Invalid category")) ∧
    ((ServerJs.validateMovie { m with category := some "movie" }).isOk = true →
      (((ServerJs.validateMovie m).isOk = true) ↔
        (m.category = some "movie" ∨ m.category = some "tv-series" ∨
         m.category = some "music")) ∧
      (¬(m.category = some "movie" ∨ m.category = some "tv-series" ∨
         m.category = some "music") →
        ServerJs.validateMovie m = .error "Invalid category")) := by
  constructor
  · intro hok
    obtain ⟨ht, -, hy, hr, hd, hg⟩ := (hub_validateMovie_isOk_iff _).mp hok
    constructor
    · rw [hub_validateMovie_isOk_iff]
      constructor
      · rintro ⟨-, hcat, -⟩
        cases hmc : m.category with
        | none => rw [hmc] at hcat; simp [categoryOk] at hcat
        | some s =>
          rw [hmc] at hcat
          simp [categoryOk, Hub.hubCategories] at hcat
          rcases hcat with h | h | h | h <;> simp [hmc, h]
      · intro hdisj
        refine ⟨ht, ?_, hy, hr, hd, hg⟩
        rcases hdisj with h | h | h | h <;> rw [h] <;> rfl
    · intro hnot
      refine hub_validateMovie_category_error m ht ?_
      cases hmc : m.category with
      | none => rfl
      | some s =>
        rw [hmc] at hnot
        simp only [Option.some.injEq] at hnot
        push_neg at hnot
        simp [categoryOk, Hub.hubCategories]
        exact ⟨hnot.1, hnot.2.1, hnot.2.2.1, hnot.2.2.2⟩
  · intro hok
    obtain ⟨ht, -, hy, hr, hd, hg⟩ := (serverJs_validateMovie_isOk_iff _).mp hok
    constructor
    · rw [serverJs_validateMovie_isOk_iff]
      constructor
      · rintro ⟨-, hcat, -⟩
        cases hmc : m.category with
        | none => rw [hmc] at hcat; simp [categoryOk] at hcat
        | some s =>
          rw [hmc] at hcat
          simp [categoryOk, ServerJs.serverJsCategories] at hcat
          rcases hcat with h | h | h <;> simp [hmc, h]
      · intro hdisj
        refine ⟨ht, ?_, hy, hr, hd, hg⟩
        rcases hdisj with h | h | h <;> rw [h] <;> rfl
    · intro hnot
      refine serverJs_validateMovie_category_error m ht ?_
      cases hmc : m.category with
      | none => rfl
      | some s =>
        rw [hmc] at hnot
        simp only [Option.some.injEq] at hnot
        push_neg at hnot
        simp [categoryOk, ServerJs.serverJsCategories]
        exact ⟨hnot.1, hnot.2.1, hnot.2.2⟩

/-- Witness for C4 (amended): applied to `animMovie`, whose other fields
are valid for both validators: part_001 accepts `animation`; server.js
rejects it with the invalid-category error. -/
theorem claim_C4_witness :
    (Hub.validateMovie animMovie).isOk = true ∧
    ServerJs.validateMovie animMovie = .error "Invalid category" := by
  have h := claim_C4_categories animMovie
  refine ⟨(h.1 (by decide)).1.mpr (by decide), (h.2 (by decide)).2 (by decide)⟩

/-- Claim C5: for every record whose rating field is present (and whose
other fields are valid), validation succeeds exactly when the rating
coerces to a number in the closed interval [0, 10]; out-of-range or
non-numeric ratings (such as 11 or -1) fail with the rating error. -/
theorem claim_C5_rating (m : BuiltMovie)
    (hok : (Hub.validateMovie { m with rating := "" }).isOk = true)
    (hp : m.rating ≠ "") :
    (((Hub.validateMovie m).isOk = true) ↔
      (∃ q : ℚ, jsToNum m.rating = some q ∧ 0 ≤ q ∧ q ≤ 10)) ∧
    (ratingBad m.rating = true →
      Hub.validateMovie m = .error "Rating must be between 0 and 10") := by
  obtain ⟨ht, hc, hy, -, hd, hg⟩ := (hub_validateMovie_isOk_iff _).mp hok
  constructor
  · rw [hub_validateMovie_isOk_iff]
    constructor
    · rintro ⟨-, -, -, hr, -, -⟩
      unfold ratingBad at hr
      cases hq : jsToNum m.rating with
      | none => rw [hq] at hr; simp [hp] at hr
      | some q =>
        rw [hq] at hr
        simp [hp] at hr
        exact ⟨q, rfl, hr.1, hr.2⟩
    · rintro ⟨q, hq, h0, h10⟩
      refine ⟨ht, hc, hy, ?_, hd, hg⟩
      unfold ratingBad
      rw [hq]
      simp [not_lt.mpr h0, not_lt.mpr h10]
  · intro hbad
    exact hub_validateMovie_rating_error m ht hc hy hbad

/-- Witness for C5: with otherwise-valid fields, rating `"11"` is rejected
with the rating error, rating `"-1"` likewise, and rating `"7"` is
accepted. -/
theorem claim_C5_witness :
    Hub.validateMovie { animMovie with rating := "11" } =
      .error "Rating must be between 0 and 10" ∧
    Hub.validateMovie { animMovie with rating := "-1" } =
      .error "Rating must be between 0 and 10" ∧
    (Hub.validateMovie { animMovie with rating := "7" }).isOk = true := by
  refine ⟨?_, ?_, ?_⟩
  · exact (claim_C5_rating { animMovie with rating := "11" } (by decide) (by decide)).2 (by decide)
  · exact (claim_C5_rating { animMovie with rating := "-1" } (by decide) (by decide)).2 (by decide)
  · exact ((claim_C5_rating { animMovie with rating := "7" } (by decide) (by decide)).1).mpr
      ⟨7, by decide, by decide, by decide⟩

end CreativesHub

namespace CreativesHub

theorem hub_validateMovie_ok_genres {m : BuiltMovie} {gl : List String}
    (h : Hub.validateMovie m = .ok gl) : gl = normalizeGenres m.genres := by
  unfold Hub.validateMovie at h
  by_cases h6 : genresBad (normalizeGenres m.genres) = true <;>
    split_ifs at h <;> simp_all

/-- Claim C9: a successful edit replaces the located record wholesale by
the newly built record, preserving only its id (every metadata field comes
from the request alone — absent fields are wiped to their defaults, not
merged from the old record — apart from the `file_path`/`poster`
fallbacks), and every other record of the catalog is unchanged. -/
theorem claim_C9_edit_wholesale (i : Int) (req : MovieRequest) (ts : String)
    (st st2 : ServerState) (l : List StoredMovie) (updated : StoredMovie)
    (hcat : st.catalog = .valid l)
    (hop : Hub.movies_edit i req ts st = (.ok updated, st2)) :
    ∃ idx : Nat, ∃ hlt : idx < l.length,
      (l.get ⟨idx, hlt⟩).id = i ∧
      st2.catalog = .valid (l.set idx updated) ∧
      updated.id = (l.get ⟨idx, hlt⟩).id ∧
      updated.title = req.title ∧
      updated.duration = jsOr req.duration "" ∧
      updated.year = jsOr req.year "" ∧
      updated.rating = jsOr req.rating "" ∧
      updated.resolution = jsOr req.resolution "" ∧
      updated.category = req.category ∧
      updated.description = jsOr req.description "" ∧
      updated.genres = normalizeGenres req.genres ∧
      updated.file_path = (Hub.buildEditMovie req (l.get ⟨idx, hlt⟩)).file_path ∧
      updated.poster = (Hub.buildEditMovie req (l.get ⟨idx, hlt⟩)).poster ∧
      (∀ j, ∀ hj : j < l.length, j ≠ idx →
        (l.set idx updated).get ⟨j, by rw [List.length_set]; exact hj⟩ = l.get ⟨j, hj⟩) := by
  obtain ⟨cat, bks, fls⟩ := st
  obtain rfl : cat = .valid l := hcat
  rw [Hub.movies_edit_eval] at hop
  by_cases hfi : l.findIdx (fun m => m.id == i) < l.length
  · rw [dif_pos hfi] at hop
    rcases hv : Hub.validateMovie (Hub.buildEditMovie req l[l.findIdx (fun m => m.id == i)]) with e | gl
    · simp only [hv] at hop
      injection hop with h1 h2
      simp at h1
    · simp only [hv] at hop
      injection hop with h1 h2
      injection h1 with h1
      subst h1
      subst h2
      have hid : (l[l.findIdx (fun m => m.id == i)]).id = i := by
        simpa using @List.findIdx_getElem _ (fun m => m.id == i) l hfi
      refine ⟨l.findIdx (fun m => m.id == i), hfi, ?_, rfl, ?_, rfl, rfl, rfl, rfl, rfl, rfl,
        rfl, ?_, ?_, ?_, ?_⟩
      · simpa [List.get_eq_getElem] using hid
      · simpa [List.get_eq_getElem, mkStored] using hid.symm
      · exact hub_validateMovie_ok_genres hv
      · simp only [List.get_eq_getElem]
        rfl
      · simp only [List.get_eq_getElem]
        rfl
      · intro j hj hne
        simp only [List.get_eq_getElem]
        exact List.getElem_set_ne (Ne.symm hne) _
  · rw [dif_neg hfi] at hop
    injection hop with h1 h2
    simp at h1

/-- Witness for C9: editing the one-record catalog of `c9start` (old year
`"1999"`) without uploads replaces the record wholesale: the id survives,
title and category come from the request, the old year is wiped to `""`,
and `file_path`/`poster` fall back to the old values. -/
theorem claim_C9_witness :
    Hub.movies_edit 3 { demoReq with movie_file := none } "ts" c9start =
      (.ok c9updated, c9state) ∧
    c9updated.year = "" ∧ c9updated.category = some "music" := by
  have hop : Hub.movies_edit 3 { demoReq with movie_file := none } "ts" c9start =
      (.ok c9updated, c9state) := by rfl
  have h := claim_C9_edit_wholesale 3 { demoReq with movie_file := none } "ts"
    c9start c9state [{ demoMovie 3 with year := "1999" }] c9updated rfl hop
  obtain ⟨idx, hlt, -, -, -, -, -, hyear, -⟩ := h
  exact ⟨hop, by rw [hyear]; rfl, rfl⟩

/-- Claim C10: an edit with no uploaded movie file and no `file_path` form
field keeps the old record's `file_path` verbatim — for every requested
category — so after such an edit the `file_path` directory prefix need not
correspond to the stored category. -/
theorem claim_C10_edit_keeps_file_path (i : Int) (req : MovieRequest) (ts : String)
    (st st2 : ServerState) (l : List StoredMovie) (updated : StoredMovie)
    (hcat : st.catalog = .valid l)
    (hnf : req.movie_file = none)
    (hfp : req.file_path = none ∨ req.file_path = some "")
    (hop : Hub.movies_edit i req ts st = (.ok updated, st2)) :
    ∃ idx : Nat, ∃ hlt : idx < l.length,
      (l.get ⟨idx, hlt⟩).id = i ∧
      updated.file_path = (l.get ⟨idx, hlt⟩).file_path := by
  obtain ⟨cat, bks, fls⟩ := st
  obtain rfl : cat = .valid l := hcat
  rw [Hub.movies_edit_eval] at hop
  by_cases hfi : l.findIdx (fun m => m.id == i) < l.length
  · rw [dif_pos hfi] at hop
    rcases hv : Hub.validateMovie (Hub.buildEditMovie req l[l.findIdx (fun m => m.id == i)]) with e | gl
    · simp only [hv] at hop
      injection hop with h1 h2
      simp at h1
    · simp only [hv] at hop
      injection hop with h1 h2
      injection h1 with h1
      subst h1
      have hid : (l[l.findIdx (fun m => m.id == i)]).id = i := by
        simpa using @List.findIdx_getElem _ (fun m => m.id == i) l hfi
      refine ⟨l.findIdx (fun m => m.id == i), hfi, ?_, ?_⟩
      · simpa [List.get_eq_getElem] using hid
      · show (Hub.buildEditMovie req l[l.findIdx (fun m => m.id == i)]).file_path = _
        unfold Hub.buildEditMovie
        rw [hnf]
        rcases hfp with h | h <;> rw [h] <;> rfl
  · rw [dif_neg hfi] at hop
    injection hop with h1 h2
    simp at h1

/-- Witness for C10: the same no-upload edit that switches the category to
`music` keeps `file_path = "/hub/movies/old.mp4"`, whose directory prefix
is the movies directory, not the music one. -/
theorem claim_C10_witness :
    Hub.movies_edit 3 { demoReq with movie_file := none } "ts" c9start =
      (.ok c9updated, c9state) ∧
    c9updated.file_path = "/hub/movies/old.mp4" ∧
    c9updated.category = some "music" ∧
    ("/hub/movies/old.mp4".data.take 12 = "/hub/movies/".data) := by
  have hop : Hub.movies_edit 3 { demoReq with movie_file := none } "ts" c9start =
      (.ok c9updated, c9state) := by rfl
  have h := claim_C10_edit_keeps_file_path 3 { demoReq with movie_file := none } "ts"
    c9start c9state [{ demoMovie 3 with year := "1999" }] c9updated rfl rfl (Or.inl rfl) hop
  obtain ⟨idx, hlt, -, hfp⟩ := h
  have hlt1 : idx < 1 := by simpa using hlt
  have hidx0 : idx = 0 := by omega
  subst hidx0
  exact ⟨hop, by rw [hfp]; rfl, rfl, by decide⟩

end CreativesHub

namespace CreativesHub

/-- Claim C6: deleting a non-existent id fails with the not-found error and
leaves the state unchanged; deleting an existing id succeeds, removes that
record (no record with that id remains in the written catalog), and removes
its non-empty `file_path` and `poster` paths from disk. -/
theorem claim_C6_delete (i : Int) (ts : String) (st : ServerState)
    (l : List StoredMovie)
    (hcat : st.catalog = .valid l) (hnd : (l.map (·.id)).Nodup) :
    ((¬ ∃ m ∈ l, m.id = i) →
      Hub.movies_delete i ts st = (.error "Movie not found", st)) ∧
    (∀ r st2, (∃ m ∈ l, m.id = i) → Hub.movies_delete i ts st = (r, st2) →
      r = .ok "Movie deleted" ∧
      ∃ idx : Nat, ∃ hlt : idx < l.length,
        (l.get ⟨idx, hlt⟩).id = i ∧
        st2.catalog = .valid (l.eraseIdx idx) ∧
        (∀ m2 ∈ l.eraseIdx idx, m2.id ≠ i) ∧
        ((l.get ⟨idx, hlt⟩).file_path ≠ "" → (l.get ⟨idx, hlt⟩).file_path ∉ st2.files) ∧
        ((l.get ⟨idx, hlt⟩).poster ≠ "" → (l.get ⟨idx, hlt⟩).poster ∉ st2.files)) := by
  obtain ⟨cat, bks, fls⟩ := st
  obtain rfl : cat = .valid l := hcat
  constructor
  · intro hnone
    rw [Hub.movies_delete_eval]
    have hfi : ¬ (l.findIdx (fun m => m.id == i) < l.length) := by
      intro hlt
      apply hnone
      refine ⟨l[l.findIdx (fun m => m.id == i)], List.getElem_mem _, ?_⟩
      simpa using @List.findIdx_getElem _ (fun m => m.id == i) l hlt
    rw [dif_neg hfi]
  · intro r st2 hex hop
    rw [Hub.movies_delete_eval] at hop
    have hfi : l.findIdx (fun m => m.id == i) < l.length := by
      rw [List.findIdx_lt_length]
      obtain ⟨m, hm, hmi⟩ := hex
      exact ⟨m, hm, by simpa using hmi⟩
    rw [dif_pos hfi] at hop
    injection hop with h1 h2
    subst h2
    have hid : (l[l.findIdx (fun m => m.id == i)]).id = i := by
      simpa using @List.findIdx_getElem _ (fun m => m.id == i) l hfi
    refine ⟨h1.symm, l.findIdx (fun m => m.id == i), hfi, ?_, rfl, ?_, ?_, ?_⟩
    · simpa [List.get_eq_getElem] using hid
    · -- no record with id i survives the eraseIdx
      intro m2 hm2 hm2i
      obtain ⟨j, hj, hje⟩ := List.mem_iff_getElem.mp hm2
      rw [List.getElem_eraseIdx] at hje
      set idx := l.findIdx (fun m => m.id == i) with hidxdef
      have hglen : ∀ k, ∀ hk : k < l.length, k ≠ idx → (l.get ⟨k, hk⟩).id = i → False := by
        intro k hk hkne hki
        have hmj : k < (l.map (·.id)).length := by
          rw [List.length_map]
          exact hk
        have hmidx : idx < (l.map (·.id)).length := by
          rw [List.length_map]
          exact hfi
        have hgeq : (l.map (·.id)).get ⟨k, hmj⟩ = (l.map (·.id)).get ⟨idx, hmidx⟩ := by
          simp only [List.get_eq_getElem, List.getElem_map]
          rw [hid]
          simpa [List.get_eq_getElem] using hki
        have := (List.Nodup.get_inj_iff hnd).mp hgeq
        exact hkne (by simpa using this)
      by_cases hji : j < idx
      · rw [dif_pos hji] at hje
        have hjl : j < l.length := lt_trans hji hfi
        exact hglen j hjl (Nat.ne_of_lt hji) (by simpa [List.get_eq_getElem] using
          (hje.symm ▸ hm2i : (l[j]).id = i))
      · rw [dif_neg hji] at hje
        have hjl : j + 1 < l.length := by
          have := hj
          rw [List.length_eraseIdx, if_pos hfi] at this
          omega
        have hne2 : j + 1 ≠ idx := by omega
        exact hglen (j + 1) hjl hne2 (by simpa [List.get_eq_getElem] using
          (hje.symm ▸ hm2i : (l[j + 1]).id = i))
    · -- the media file is unlinked
      intro hfp
      simp only [List.get_eq_getElem] at hfp ⊢
      by_cases hps : (l[l.findIdx (fun m => m.id == i)]).poster ≠ "" <;>
        simp [hfp, hps, List.mem_filter]
    · -- the poster file is unlinked
      intro hps
      simp only [List.get_eq_getElem] at hps ⊢
      by_cases hfp : (l[l.findIdx (fun m => m.id == i)]).file_path ≠ "" <;>
        simp [hfp, hps, List.mem_filter]

/-- Witness for C6: deleting id 9 from `demoState` (whose only record has
id 3) is a not-found no-op; deleting id 3 succeeds and its media file is
gone from disk. -/
theorem claim_C6_witness :
    Hub.movies_delete 9 "ts" demoState = (.error "Movie not found", demoState) ∧
    (Hub.movies_delete 3 "ts" demoState).1 = .ok "Movie deleted" ∧
    "/hub/movies/old.mp4" ∉ (Hub.movies_delete 3 "ts" demoState).2.files := by
  have h9 := claim_C6_delete 9 "ts" demoState [demoMovie 3] rfl (by decide)
  have h3 := claim_C6_delete 3 "ts" demoState [demoMovie 3] rfl (by decide)
  refine ⟨h9.1 (by decide), ?_, ?_⟩
  · have := h3.2 (Hub.movies_delete 3 "ts" demoState).1
      (Hub.movies_delete 3 "ts" demoState).2 ⟨demoMovie 3, by decide, rfl⟩ rfl
    exact this.1
  · have h := h3.2 (Hub.movies_delete 3 "ts" demoState).1
      (Hub.movies_delete 3 "ts" demoState).2 ⟨demoMovie 3, by decide, rfl⟩ rfl
    obtain ⟨-, idx, hlt, -, -, -, hfile, -⟩ := h
    have hlt1 : idx < 1 := by simpa using hlt
    have hidx0 : idx = 0 := by omega
    subst hidx0
    exact hfile (by simp [demoMovie])

end CreativesHub

namespace CreativesHub

theorem jsStrLe_refl (a : String) : jsStrLe a a = true := by
  suffices H : ∀ cs : List Char, listCharLe cs cs = true by
    exact H a.data
  intro cs
  induction cs with
  | nil => rfl
  | cons c cs2 ih => simp [listCharLe, lt_irrefl, ih]

/-- What `backupMoviesFile` leaves in the backup directory when it can copy:
the fresh backup name is present, at most `10` names remain, and every name
it deleted is lexicographically at most every name it kept. -/
theorem backup_dir_spec (bks : List String) (name : String)
    (hfresh : ∀ b ∈ bks, jsStrLe b name = true) :
    name ∈ Hub.cleanupOldBackups 10 (name :: bks.filter (· ≠ name)) ∧
    (Hub.cleanupOldBackups 10 (name :: bks.filter (· ≠ name))).length ≤ 10 ∧
    (∀ y, y ∈ name :: bks →
      y ∉ Hub.cleanupOldBackups 10 (name :: bks.filter (· ≠ name)) →
      ∀ x ∈ Hub.cleanupOldBackups 10 (name :: bks.filter (· ≠ name)),
        jsStrLe y x = true) := by
  have hmax : ∀ y ∈ name :: bks.filter (· ≠ name), jsStrLe y name = true := by
    intro y hy
    rcases List.mem_cons.mp hy with rfl | hyf
    · exact jsStrLe_refl y
    · exact hfresh y (List.mem_of_mem_filter hyf)
  have hmem : name ∈ Hub.cleanupOldBackups 10 (name :: bks.filter (· ≠ name)) :=
    mem_cleanupOldBackups_of_max (List.mem_cons_self _ _) hmax (by omega)
  refine ⟨hmem, cleanupOldBackups_length_le 10 _, ?_⟩
  intro y hy hyn x hx
  rcases List.mem_cons.mp hy with rfl | hyb
  · exact absurd hmem hyn
  · by_cases hyname : y = name
    · subst hyname
      exact absurd hmem hyn
    · have hyf : y ∈ name :: bks.filter (· ≠ name) :=
        List.mem_cons_of_mem _ (List.mem_filter.mpr ⟨hyb, by simp [hyname]⟩)
      exact cleanupOldBackups_dropped_le 10 _ hx hyf hyn

/-- Claim C7: after every successful mutating operation (add, edit,
delete) performed with a backup timestamp newer than all existing backup
names, the new timestamp-named backup exists in the backup directory, the
directory holds at most 10 backup files after pruning, and pruning only
deleted names that are lexicographically at most every kept name (it keeps
the 10 newest). -/
theorem claim_C7_backup_retention (st : ServerState) (l : List StoredMovie)
    (ts : String)
    (hcat : st.catalog = .valid l)
    (hfresh : ∀ b ∈ st.backups, jsStrLe b (backupName ts) = true) :
    (∀ req r st2, Hub.movies_add req ts st = (r, st2) → r.isOk = true →
      backupName ts ∈ st2.backups ∧ st2.backups.length ≤ 10 ∧
      (∀ y, y ∈ backupName ts :: st.backups → y ∉ st2.backups →
        ∀ x ∈ st2.backups, jsStrLe y x = true)) ∧
    (∀ i req r st2, Hub.movies_edit i req ts st = (r, st2) → r.isOk = true →
      backupName ts ∈ st2.backups ∧ st2.backups.length ≤ 10 ∧
      (∀ y, y ∈ backupName ts :: st.backups → y ∉ st2.backups →
        ∀ x ∈ st2.backups, jsStrLe y x = true)) ∧
    (∀ i r st2, Hub.movies_delete i ts st = (r, st2) → r.isOk = true →
      backupName ts ∈ st2.backups ∧ st2.backups.length ≤ 10 ∧
      (∀ y, y ∈ backupName ts :: st.backups → y ∉ st2.backups →
        ∀ x ∈ st2.backups, jsStrLe y x = true)) := by
  obtain ⟨cat, bks, fls⟩ := st
  obtain rfl : cat = .valid l := hcat
  have hspec := backup_dir_spec bks (backupName ts) hfresh
  refine ⟨?_, ?_, ?_⟩
  · intro req r st2 hop hok
    rw [Hub.movies_add_eval] at hop
    rcases hmf : req.movie_file with _ | mf
    · simp only [hmf] at hop
      injection hop with h1 h2
      rw [← h1] at hok
      simp [Except.isOk, Except.toBool] at hok
    · simp only [hmf] at hop
      rcases hv : Hub.validateMovie (Hub.buildAddMovie req mf) with e | gl
      · simp only [hv] at hop
        injection hop with h1 h2
        rw [← h1] at hok
        simp [Except.isOk, Except.toBool] at hok
      · simp only [hv] at hop
        injection hop with h1 h2
        subst h2
        exact hspec
  · intro i req r st2 hop hok
    rw [Hub.movies_edit_eval] at hop
    by_cases hfi : l.findIdx (fun m => m.id == i) < l.length
    · rw [dif_pos hfi] at hop
      rcases hv : Hub.validateMovie (Hub.buildEditMovie req l[l.findIdx (fun m => m.id == i)]) with e | gl
      · simp only [hv] at hop
        injection hop with h1 h2
        rw [← h1] at hok
        simp [Except.isOk, Except.toBool] at hok
      · simp only [hv] at hop
        injection hop with h1 h2
        subst h2
        exact hspec
    · rw [dif_neg hfi] at hop
      injection hop with h1 h2
      rw [← h1] at hok
      simp [Except.isOk, Except.toBool] at hok
  · intro i r st2 hop hok
    rw [Hub.movies_delete_eval] at hop
    by_cases hfi : l.findIdx (fun m => m.id == i) < l.length
    · rw [dif_pos hfi] at hop
      injection hop with h1 h2
      subst h2
      exact hspec
    · rw [dif_neg hfi] at hop
      injection hop with h1 h2
      rw [← h1] at hok
      simp [Except.isOk, Except.toBool] at hok

/-- Witness for C7: deleting the record of `demoState` with a fresh
timestamp leaves the new backup name in the directory and at most 10
backups. -/
theorem claim_C7_witness :
    "movies-backup-ts.json" ∈ (Hub.movies_delete 3 "ts" demoState).2.backups ∧
    (Hub.movies_delete 3 "ts" demoState).2.backups.length ≤ 10 := by
  have h := claim_C7_backup_retention demoState [demoMovie 3] "ts" rfl (by decide)
  have h3 := h.2.2 3 (Hub.movies_delete 3 "ts" demoState).1
    (Hub.movies_delete 3 "ts" demoState).2 rfl (by decide)
  exact ⟨h3.1, h3.2.1⟩

end CreativesHub
